import Mathlib

/-!
Verification of the Miner worker agent (src/src/index.ts, the canonical
revision) against its natural-language specification.

The TypeScript source is shallowly embedded:
* the fractional-difficulty proof-of-work search `minePoW` becomes a
  fuel-indexed search over an abstract hash stream `H : Nat → List Char`
  (the stream abstracts `n ↦ sha256hex(seedPrefix ++ "-" ++ toString n)`
  for the fixed per-call seed prefix; a SHA-256 hex digest always has 64
  characters);
* JavaScript numbers used for the difficulty are modelled by `ℚ`
  together with `Int.floor`, matching `Math.floor`;
* optional / possibly-`undefined` fields become `Option`; a network call
  that can throw becomes an `Except String` input that the wrapper
  functions scrutinise exactly the way the `try/catch` blocks do;
* one iteration of each `for(;;)` worker loop becomes a pure function
  from the responses observed in that iteration to the ordered list of
  actions the iteration issues.
-/

namespace Miner

/-! Hex digits, `parseInt(c, 16)` for a single character -/

/-- Numeric value of one hex character, as `parseInt(c, 16)` computes it
for a single-character string: `some v` for `0`-`9`, `a`-`f`, `A`-`F`,
otherwise `none` (JavaScript `NaN`, which fails every `<=` comparison). -/
def hexVal? (c : Char) : Option Nat :=
  if '0' ≤ c ∧ c ≤ '9' then some (c.toNat - '0'.toNat)
  else if 'a' ≤ c ∧ c ≤ 'f' then some (c.toNat - 'a'.toNat + 10)
  else if 'A' ≤ c ∧ c ≤ 'F' then some (c.toNat - 'A'.toNat + 10)
  else none

/-! The fractional-difficulty acceptance predicate (index.ts 139-176)

`minePoW` first computes, once per call (index.ts 141-151):
`intDiff = Math.floor(difficulty)`, `fracDiff = difficulty - intDiff`,
`targetPrefix = '0'.repeat(intDiff)`,
`maxNextCharVal = Math.floor(16 * (1 - fracDiff))`;
the loop body then tests each candidate digest against those values
(index.ts 161-173). `acceptHashCore` is that loop-body test with the
precomputed values as parameters, and `acceptHash` supplies them from the
difficulty. -/

/-- Loop-body acceptance test of index.ts 161-173: the digest must start
with `intDiff` zeros and, when `fracDiff > 0` (here `fracPos`), the hex
digit at 0-indexed position `intDiff` must parse and be `<=
maxNextCharVal`. -/
def acceptHashCore (intDiff : Nat) (fracPos : Bool) (maxNextCharVal : Int)
    (hash : List Char) : Bool :=
  if (List.replicate intDiff '0').isPrefixOf hash then
    if fracPos then
      match hash[intDiff]? with
      | some c =>
        match hexVal? c with
        | some v => decide ((v : Int) ≤ maxNextCharVal)
        | none => false
      | none => false
    else true
  else false

/-- The full acceptance predicate at a given difficulty, with
`intDiff`, `fracDiff > 0` and `maxNextCharVal` computed as in
index.ts 141-151. -/
def acceptHash (difficulty : ℚ) (hash : List Char) : Bool :=
  acceptHashCore (Int.floor difficulty).toNat
    (decide (0 < difficulty - Int.floor difficulty))
    (Int.floor (16 * (1 - (difficulty - Int.floor difficulty))))
    hash

/-- The value `minePoW` returns (the wall-clock `duration` field is not
modelled: it is real time, not data the claims constrain). -/
structure PoWSolution where
  nonce : Nat
  hash : List Char
deriving DecidableEq, Repr

/-- The `while (true) { ...; nonce++ }` search of index.ts 157-176, made
total with an explicit fuel bound: try `fuel` successive nonces starting
at `nonce`, returning the first one whose digest `accept`s. -/
def minePoWAux (accept : List Char → Bool) (H : Nat → List Char) :
    Nat → Nat → Option PoWSolution
  | 0, _ => none
  | fuel + 1, nonce =>
    if accept (H nonce) then some ⟨nonce, H nonce⟩
    else minePoWAux accept H fuel (nonce + 1)

/-- The call `minePoW(difficulty)` for the hash stream `H` of one call's seed
prefix: the search starts at `nonce = 0` (index.ts 153). -/
def minePoW (H : Nat → List Char) (difficulty : ℚ) (fuel : Nat) :
    Option PoWSolution :=
  minePoWAux (acceptHash difficulty) H fuel 0

/-- The hardcoded mining difficulty (index.ts 18):
`const MINING_DIFFICULTY = 5.5`. -/
def MINING_DIFFICULTY : ℚ := 11 / 2

/-- Bridge from the rational-valued parameters of `acceptHash` to the
plain-data parameters of `acceptHashCore`, used to evaluate the predicate
at concrete difficulties. -/
theorem acceptHash_eq_core (d : ℚ) (k : Nat) (p : Bool) (m : Int)
    (hk : (Int.floor d).toNat = k)
    (hp : decide (0 < d - Int.floor d) = p)
    (hm : Int.floor (16 * (1 - (d - Int.floor d))) = m) :
    acceptHash d = acceptHashCore k p m := by
  subst hk hp hm
  rfl

theorem acceptHash_half : acceptHash (1 / 2) = acceptHashCore 0 true 8 :=
  acceptHash_eq_core _ _ _ _ (by norm_num) (by norm_num) (by norm_num)

/-! Response types (index.ts 47-52)

Optional TypeScript fields (`bound?`, `gpuVerified?`, ...) become
`Option`; a JavaScript truthiness test `!x` on such a field succeeds
exactly when the field is `undefined`, `false`, `null`, `0` or `''`, so
for an optional boolean it fails only on `some true`. -/

/-- Response type `HelloResp` (index.ts 48). -/
structure HelloResp where
  ok : Bool
  bound : Option Bool := none
  hostId : Option String := none
  deviceId : Option String := none
  wallet : Option String := none
  error : Option String := none
deriving DecidableEq, Repr

/-- Response type `HostState` (index.ts 49); `wallet` is `string | null`. -/
structure HostState where
  hostId : String
  enabled : Bool
  wallet : Option String := none
  gpuReportedModel : Option String := none
  gpuVerified : Option Bool := none
deriving DecidableEq, Repr

/-- Response type `ShareResp` (index.ts 50). -/
structure ShareResp where
  ok : Option Bool := none
  total : Option Nat := none
  error : Option String := none
deriving DecidableEq, Repr

/-- Job record `AiJob` (index.ts 51). -/
structure AiJob where
  id : Nat
  wallet : String
  model_id : String
  prompt : String
  status : String
  result : Option String := none
  error : Option String := none
deriving DecidableEq, Repr

/-- Response type `AiJobNextResp` (index.ts 52). -/
structure AiJobNextResp where
  ok : Option Bool := none
  job : Option AiJob := none
  error : Option String := none
deriving DecidableEq, Repr

/-- An HTTP response before JSON decoding: `ok` is the fetch `r.ok`
flag (status in 200-299), `status` the numeric code, `body` the decoded
JSON payload. -/
structure HttpResp (α : Type) where
  ok : Bool
  status : Nat
  body : α
deriving DecidableEq, Repr

/-! API call wrappers (index.ts 56-135)

Each wrapper takes the raw outcome of its `fetch`/`json()` pipeline —
`Except.error m` when the awaited call threw with message `m` — and
returns exactly what the TypeScript function returns, reproducing each
`try/catch`. -/

/-- JavaScript `x || d` for an optional string `x`: the default is used
when `x` is `undefined` or the empty string. -/
def orDefault (v : Option String) (d : String) : String :=
  match v with
  | some s => if s = "" then d else s
  | none => d

/-- The wrapper `hello()` (index.ts 58-69): on throw, `{ ok: false, error:
e?.message || 'hello_failed' }`. -/
def helloResult (raw : Except String HelloResp) : HelloResp :=
  match raw with
  | .ok r => r
  | .error m => { ok := false, error := some (orDefault (some m) "hello_failed") }

/-- The wrapper `hostState()` (index.ts 71-78): on throw, `null`. The body is
decoded without consulting `r.ok`, exactly as the source does. -/
def hostStateResult (raw : Except String HostState) : Option HostState :=
  match raw with
  | .ok r => some r
  | .error _ => none

/-- The wrapper `share(diff)` (index.ts 80-93): non-2xx becomes `{ ok: false,
error: j?.error || 'http_<status>' }`; a throw becomes `{ ok: false,
error: e?.message || 'share_failed' }`. -/
def shareResult (raw : Except String (HttpResp ShareResp)) : ShareResp :=
  match raw with
  | .error m => { ok := some false, error := some (orDefault (some m) "share_failed") }
  | .ok r =>
    if r.ok then r.body
    else { ok := some false, error := some (orDefault r.body.error ("http_" ++ toString r.status)) }

/-- The wrapper `fetchNextAiJob()` (index.ts 95-109): `null` on throw, `null` on
non-2xx, otherwise `j.job ?? null`. -/
def fetchNextAiJobResult (raw : Except String (HttpResp AiJobNextResp)) :
    Option AiJob :=
  match raw with
  | .error _ => none
  | .ok r => if r.ok then r.body.job else none

/-- The JSON body `{ result, error: error || null }` that
`submitAiJobResult` posts (index.ts 116): an `undefined` or empty error
string is sent as `null`. -/
def submitAiJobPayload (result : String) (error : Option String) :
    String × Option String :=
  (result,
    match error with
    | some e => if e = "" then none else some e
    | none => none)

/-- JavaScript `String.prototype.includes`: `containsSub needle hay` is true when
`needle` occurs contiguously in `hay`. -/
def containsSub (needle hay : List Char) : Bool :=
  hay.tails.any fun t => needle.isPrefixOf t

/-- Backend model name chosen by `runOllamaInference` (index.ts 124):
`modelId.toLowerCase().includes('mistral') ? 'mistral' : 'llama3.1'`. -/
def engineModelFor (modelId : String) : String :=
  if containsSub ("mistral".toList) (modelId.toList.map Char.toLower) then ("mistral")
  else ("llama3.1")

/-! Worker loop iterations (index.ts 181-245)

One iteration of each `for(;;)` loop, as a pure function from the
responses observed in that iteration to the ordered list of actions the
iteration issues. -/

/-- The gate test shared by both loops (index.ts 189 and 217):
`!s?.enabled || !s.gpuVerified` fails — i.e. the iteration may proceed —
exactly when the state query returned a body with `enabled == true` and
`gpuVerified == true`. -/
def gateOpen (s : Option HostState) : Bool :=
  match s with
  | none => false
  | some st => st.enabled && st.gpuVerified.getD false

/-- Externally visible actions of one mining-loop iteration. -/
inductive MAction where
  | helloCall
  | hostStateCall
  | minePowRun (difficulty : ℚ)
  | shareCall (difficulty : ℚ)
  | delayCall (ms : Nat)
deriving DecidableEq, Repr

/-- One iteration of `miningWorker` (index.ts 184-207): `hello`; if
`bound` is not `true`, delay 2000 and restart; else `hostState`; if the
gate is closed, delay 5000 and restart; else run `minePoW` and submit a
share, both at `MINING_DIFFICULTY`, then delay 50. -/
def miningIteration (h : HelloResp) (s : Option HostState) : List MAction :=
  MAction.helloCall ::
    (if h.bound = some true then
      MAction.hostStateCall ::
        (if gateOpen s then
          [MAction.minePowRun MINING_DIFFICULTY,
           MAction.shareCall MINING_DIFFICULTY,
           MAction.delayCall 50]
        else [MAction.delayCall 5000])
    else [MAction.delayCall 2000])

/-- The loop body of `miningWorker` with the raw outcomes of its two remote calls: every
path of the loop body is covered by a `try/catch` inside the call
wrappers, so the iteration always completes normally (`Except.ok`) —
there is no path that rejects the `miningWorker()` promise. -/
def miningIterationRaw (rawHello : Except String HelloResp)
    (rawState : Except String HostState) : Except String (List MAction) :=
  Except.ok (miningIteration (helloResult rawHello) (hostStateResult rawState))

/-- Fallback result text on inference failure (index.ts 234). -/
def fallbackResult : String := "Error generating response from GPU."

/-- The `result`/`error` pair after the inner `try/catch` of the AI loop
(index.ts 224-235): on success the generated text and no error; on a
throw with message `msg`, `error = err.message || 'GPU_INFERENCE_FAILED'`
(an empty/absent message becomes the constant) and the fallback result. -/
def inferenceOutcome (inf : Except String String) : String × Option String :=
  match inf with
  | .ok text => (text, none)
  | .error msg => (fallbackResult, some (if msg = "" then ("GPU_INFERENCE_FAILED") else msg))

/-- Externally visible actions of one AI-loop iteration. -/
inductive AAction where
  | hostStateCall
  | fetchJobCall
  | inferenceCall (modelId : String) (prompt : String)
  | submitResultCall (jobId : Nat) (result : String) (error : Option String)
  | delayCall (ms : Nat)
deriving DecidableEq, Repr

/-- One iteration of `aiWorker` (index.ts 214-244): `hostState`; if the
gate is closed, delay 5000 and restart; else `fetchNextAiJob`; if no job,
delay 2000 and restart; else run inference on the job's model and prompt
and submit exactly one result for the job's id. -/
def aiIteration (s : Option HostState)
    (rawJob : Except String (HttpResp AiJobNextResp))
    (inf : Except String String) : List AAction :=
  AAction.hostStateCall ::
    (if gateOpen s then
      AAction.fetchJobCall ::
        (match fetchNextAiJobResult rawJob with
        | none => [AAction.delayCall 2000]
        | some j =>
          [AAction.inferenceCall j.model_id j.prompt,
           AAction.submitResultCall j.id (inferenceOutcome inf).1 (inferenceOutcome inf).2])
    else [AAction.delayCall 5000])

/-- The loop body of `aiWorker` with raw call outcomes: the whole body sits in a
`try/catch` whose handler only logs and delays, and every modelled path
completes normally, so the `aiWorker()` promise never rejects. -/
def aiIterationRaw (rawState : Except String HostState)
    (rawJob : Except String (HttpResp AiJobNextResp))
    (inf : Except String String) : Except String (List AAction) :=
  Except.ok (aiIteration (hostStateResult rawState) rawJob inf)

/-! Configuration and startup (index.ts 7-23, 249-256) -/

/-- The process configuration of index.ts 8-18 plus the `GPU_MODEL`
environment override of index.ts 27-29. `env` maps a variable name to
its value (`none` when unset); `hostname` models `os.hostname()`. -/
structure Config where
  wallet : String
  hostId : String
  deviceId : String
  coord : String
  ollamaUrl : String
  miningDifficulty : ℚ
  gpuModelOverride : Option String
deriving DecidableEq, Repr

/-- The environment override branch of `detectGpuModel` (index.ts
27-29): a set, non-blank `GPU_MODEL` is used trimmed (the `nvidia-smi`
probe that otherwise runs is external I/O and is not modelled). -/
def gpuOverrideOf (v : Option String) : Option String :=
  match v with
  | some s => if s ≠ "" ∧ s.trim ≠ "" then some s.trim else none
  | none => none

/-- index.ts 8-18: every configuration value read from the environment,
with its default — and `MINING_DIFFICULTY`, which line 18 hardcodes to
`5.5` without consulting the environment. -/
def configOf (env : String → Option String) (hostname : String) : Config :=
  { wallet := orDefault (env ("WALLET")) ""
    hostId := orDefault (env ("HOST_ID")) "HOST-3090-1"
    deviceId := orDefault (env ("DEVICE_ID")) hostname
    coord := orDefault (env ("COORD")) "http://127.0.0.1:8787"
    ollamaUrl := orDefault (env ("OLLAMA_URL")) "http://127.0.0.1:11434"
    miningDifficulty := MINING_DIFFICULTY
    gpuModelOverride := gpuOverrideOf (env ("GPU_MODEL")) }

/-- index.ts 20-23 followed by 249-256: if the wallet is falsy (unset or
empty) the process exits with status 1 before either worker loop starts;
otherwise the workers run with the built configuration. -/
def programBoot (env : String → Option String) (hostname : String) :
    Except Nat Config :=
  let c := configOf env hostname
  if c.wallet = "" then Except.error 1 else Except.ok c

/-- Marker for the single submission action of an AI-loop iteration. -/
def isSubmitCall : AAction → Bool
  | AAction.submitResultCall _ _ _ => true
  | _ => false

end Miner

namespace Miner

/-! Helper lemmas -/

/-- What a successful fuel-bounded search guarantees: the returned nonce
lies in the searched window, its digest is the one accepted, and every
earlier nonce in the window was rejected. -/
theorem minePoWAux_some_spec (accept : List Char → Bool) (H : Nat → List Char) :
    ∀ (fuel start : Nat) (sol : PoWSolution),
      minePoWAux accept H fuel start = some sol →
      start ≤ sol.nonce ∧ sol.nonce < start + fuel ∧ sol.hash = H sol.nonce
      ∧ accept (H sol.nonce) = true
      ∧ ∀ m, start ≤ m → m < sol.nonce → accept (H m) = false := by
  intro fuel
  induction fuel with
  | zero => intro start sol h; simp [minePoWAux] at h
  | succ fuel ih =>
    intro start sol h
    rw [minePoWAux] at h
    by_cases hacc : accept (H start) = true
    · rw [if_pos hacc] at h
      obtain rfl : PoWSolution.mk start (H start) = sol := Option.some.inj h
      refine ⟨Nat.le_refl _, by show start < start + (fuel + 1); omega, rfl, hacc, ?_⟩
      intro m hm1 hm2
      exact absurd (Nat.lt_of_le_of_lt hm1 hm2) (lt_irrefl _)
    · rw [if_neg hacc] at h
      obtain ⟨h1, h2, h3, h4, h5⟩ := ih (start + 1) sol h
      refine ⟨by omega, by omega, h3, h4, ?_⟩
      intro m hm1 hm2
      rcases Nat.eq_or_lt_of_le hm1 with rfl | hlt
      · exact Bool.not_eq_true _ |>.mp hacc
      · exact h5 m (by omega) hm2

/-- If some nonce in the window is accepted, the search succeeds. -/
theorem minePoWAux_complete (accept : List Char → Bool) (H : Nat → List Char)
    (n : Nat) (hacc : accept (H n) = true) :
    ∀ (fuel start : Nat), start ≤ n → n < start + fuel →
      ∃ sol, minePoWAux accept H fuel start = some sol := by
  intro fuel
  induction fuel with
  | zero => intro start h1 h2; omega
  | succ fuel ih =>
    intro start h1 h2
    rw [minePoWAux]
    by_cases h : accept (H start) = true
    · exact ⟨⟨start, H start⟩, by rw [if_pos h]⟩
    · have hne : start ≠ n := fun e => h (e ▸ hacc)
      obtain ⟨sol, hs⟩ := ih (start + 1) (by omega) (by omega)
      exact ⟨sol, by rw [if_neg h]; exact hs⟩

/-- The gate is open exactly when the state query returned a body with
`enabled == true` and `gpuVerified == true`. -/
theorem gateOpen_iff (s : Option HostState) :
    gateOpen s = true
      ↔ ∃ st, s = some st ∧ st.enabled = true ∧ st.gpuVerified = some true := by
  cases s with
  | none => simp [gateOpen]
  | some st =>
    cases hgv : st.gpuVerified with
    | none => simp [gateOpen, hgv]
    | some b => cases b <;> simp [gateOpen, hgv]

/-- Splitting the floor of `n + f` for a fractional part `0 ≤ f < 1`. -/
theorem floor_nat_add_fract (n : Nat) (f : ℚ) (hf0 : 0 ≤ f) (hf1 : f < 1) :
    Int.floor ((n : ℚ) + f) = (n : Int) := by
  rw [add_comm, Int.floor_add_nat, Int.floor_eq_zero_iff.mpr ⟨hf0, hf1⟩, zero_add]

/-- Boolean prefix test, unfolded to its witness. -/
theorem isPrefixOf_eq_true_iff : ∀ (l1 l2 : List Char),
    l1.isPrefixOf l2 = true ↔ ∃ r, l1 ++ r = l2
  | [], l2 => by simp [List.isPrefixOf]
  | a :: t, [] => by simp [List.isPrefixOf]
  | a :: t, b :: u => by
    simp [List.isPrefixOf, isPrefixOf_eq_true_iff t u, List.cons.injEq]

/-- The test `containsSub` is contiguous-substring containment. -/
theorem containsSub_iff (needle hay : List Char) :
    containsSub needle hay = true ↔ needle <:+: hay := by
  unfold containsSub
  rw [List.any_eq_true]
  constructor
  · rintro ⟨t, ht, hp⟩
    rw [List.mem_tails] at ht
    obtain ⟨s, hs⟩ := ht
    obtain ⟨r, hr⟩ := (isPrefixOf_eq_true_iff needle t).mp hp
    exact ⟨s, r, by rw [List.append_assoc, hr, hs]⟩
  · rintro ⟨s, r, hsr⟩
    refine ⟨needle ++ r, ?_, ?_⟩
    · rw [List.mem_tails]
      exact ⟨s, by rw [← List.append_assoc, hsr]⟩
    · exact (isPrefixOf_eq_true_iff needle (needle ++ r)).mpr ⟨r, rfl⟩

/-- Characterization of a successful `acceptHashCore` test. -/
theorem acceptHashCore_eq_true_iff (k : Nat) (p : Bool) (m : Int) (h : List Char) :
    acceptHashCore k p m h = true
      ↔ (List.replicate k '0').isPrefixOf h = true
        ∧ (p = true → ∃ c v, h[k]? = some c ∧ hexVal? c = some v ∧ (v : Int) ≤ m) := by
  unfold acceptHashCore
  by_cases hpre : (List.replicate k '0').isPrefixOf h = true
  · rw [if_pos hpre]
    cases p with
    | false => simp [hpre]
    | true =>
      cases hc : h[k]? with
      | none => simp [hpre, hc]
      | some c =>
        cases hv : hexVal? c with
        | none => simp [hpre, hc, hv]
        | some v => simp [hpre, hc, hv]
  · rw [if_neg hpre]
    simp only [Bool.not_eq_true] at hpre
    simp [hpre]

/-! Claims -/

/-- C1: neither worker loop issues a share submission or a job claim in
an iteration whose latest observed responses do not authorize it: the
mining iteration emits `shareCall` only when `hello` returned
`bound = true` and `hostState` returned a body with `enabled = true` and
`gpuVerified = true`; the AI iteration emits `fetchJobCall` only when
`hostState` returned such a body. -/
theorem C1_no_work_while_ungated :
    (∀ (h : HelloResp) (s : Option HostState) (d : ℚ),
        MAction.shareCall d ∈ miningIteration h s →
        h.bound = some true
        ∧ ∃ st, s = some st ∧ st.enabled = true ∧ st.gpuVerified = some true)
    ∧ (∀ (s : Option HostState) (rawJob : Except String (HttpResp AiJobNextResp))
        (inf : Except String String),
        AAction.fetchJobCall ∈ aiIteration s rawJob inf →
        ∃ st, s = some st ∧ st.enabled = true ∧ st.gpuVerified = some true) := by
  constructor
  · intro h s d hmem
    by_cases hb : h.bound = some true
    · by_cases hg : gateOpen s = true
      · exact ⟨hb, (gateOpen_iff s).mp hg⟩
      · exact absurd hmem (by simp [miningIteration, hb, hg])
    · exact absurd hmem (by simp [miningIteration, hb])
  · intro s rawJob inf hmem
    by_cases hg : gateOpen s = true
    · exact (gateOpen_iff s).mp hg
    · exact absurd hmem (by simp [aiIteration, hg])

/-- Witness for C1 at a bound, enabled, GPU-verified iteration that does
submit a share / claim a job. -/
theorem C1_no_work_while_ungated_witness :
    ((HelloResp.mk true (some true) none none none none).bound = some true
      ∧ ∃ st, some (HostState.mk ("HOST-3090-1") true none none (some true)) = some st
          ∧ st.enabled = true ∧ st.gpuVerified = some true)
    ∧ (∃ st, some (HostState.mk ("HOST-3090-1") true none none (some true)) = some st
          ∧ st.enabled = true ∧ st.gpuVerified = some true) :=
  ⟨C1_no_work_while_ungated.1 (HelloResp.mk true (some true) none none none none)
      (some (HostState.mk ("HOST-3090-1") true none none (some true))) MINING_DIFFICULTY
      (by simp [miningIteration, gateOpen]),
    C1_no_work_while_ungated.2 (some (HostState.mk ("HOST-3090-1") true none none (some true)))
      (Except.error ("network down")) (Except.ok ("generated text"))
      (by simp [aiIteration, gateOpen, fetchNextAiJobResult])⟩

/-- C3 counterexample: at difficulty `0.5` the code accepts a hash whose
leading hex digit is `8`, because the test is `nextChar <=
Math.floor(16 * (1 - 0.5)) = 8` — the accepted region is `{0,...,8}`
(9 of 16 values), not `{0,...,7}` as the claim states. -/
theorem C3_counterexample :
    minePoW (fun _ => '8' :: List.replicate 63 '0') (1 / 2) 1
      = some ⟨0, '8' :: List.replicate 63 '0'⟩
    ∧ hexVal? '8' = some 8 ∧ ¬(8 : Nat) ≤ 7 := by
  refine ⟨?_, by decide, by decide⟩
  rw [minePoW, acceptHash_half]
  decide

/-- C3 amended: at difficulty exactly `0.5`, a hash whose leading
character is a hex digit of value `v` is accepted iff `v ≤ 8`, i.e. the
accepted region is the 9 values `{0,...,8}`. -/
theorem C3_amended_leading_digit_le_8 (h : List Char) (c : Char) (v : Nat)
    (hc : h[0]? = some c) (hv : hexVal? c = some v) :
    acceptHash (1 / 2) h = true ↔ v ≤ 8 := by
  rw [acceptHash_half]
  cases h with
  | nil => simp at hc
  | cons a t =>
    have hpre : (List.replicate 0 '0').isPrefixOf (a :: t) = true := rfl
    simp only [acceptHashCore, hpre, if_true, hc, hv]
    simp only [decide_eq_true_eq]
    omega

/-- Witness for C3's amended theorem at the hash `['8']`. -/
theorem C3_amended_witness : acceptHash (1 / 2) ['8'] = true ↔ (8 : Nat) ≤ 8 :=
  C3_amended_leading_digit_le_8 ['8'] '8' 8 (by decide) (by decide)

/-- C5: a successful `minePoW` run returns the least accepted nonce of
its hash stream — its digest satisfies the acceptance predicate, every
smaller nonce is rejected, and any other successful run over the same
stream (same seed prefix) returns the same nonce and hash. -/
theorem C5_returns_least_nonce (H : Nat → List Char) (d : ℚ)
    (fuel fuel' : Nat) (sol sol' : PoWSolution)
    (h1 : minePoW H d fuel = some sol)
    (h2 : minePoW H d fuel' = some sol') :
    acceptHash d (H sol.nonce) = true
    ∧ sol.hash = H sol.nonce
    ∧ (∀ m, m < sol.nonce → acceptHash d (H m) = false)
    ∧ sol'.nonce = sol.nonce ∧ sol'.hash = sol.hash := by
  rw [minePoW] at h1 h2
  obtain ⟨-, -, hh, ha, hmin⟩ := minePoWAux_some_spec (acceptHash d) H fuel 0 sol h1
  obtain ⟨-, -, hh', ha', hmin'⟩ := minePoWAux_some_spec (acceptHash d) H fuel' 0 sol' h2
  have hmin0 : ∀ m, m < sol.nonce → acceptHash d (H m) = false :=
    fun m hm => hmin m (Nat.zero_le m) hm
  have heq : sol'.nonce = sol.nonce := by
    rcases Nat.lt_trichotomy sol'.nonce sol.nonce with hlt | he | hgt
    · rw [hmin0 _ hlt] at ha'
      exact absurd ha' (by simp)
    · exact he
    · rw [hmin' _ (Nat.zero_le _) hgt] at ha
      exact absurd ha (by simp)
  exact ⟨ha, hh, hmin0, heq, by rw [hh', hh, heq]⟩

/-- Witness for C5 on a stream whose first accepted nonce is `1`, run
with two different fuel bounds. -/
theorem C5_returns_least_nonce_witness :
    acceptHash 1 ['0'] = true
    ∧ (['0'] : List Char) = ['0']
    ∧ (∀ m, m < 1 → acceptHash 1 (if m = 0 then ['f'] else ['0']) = false)
    ∧ (1 : Nat) = 1 ∧ (['0'] : List Char) = ['0'] := by
  have hac : acceptHash 1 = acceptHashCore 1 false 16 :=
    acceptHash_eq_core _ _ _ _ (by norm_num) (by norm_num) (by norm_num)
  exact C5_returns_least_nonce (fun n => if n = 0 then ['f'] else ['0']) 1 2 3
    ⟨1, ['0']⟩ ⟨1, ['0']⟩
    (by rw [minePoW, hac]; decide) (by rw [minePoW, hac]; decide)

/-- C6 counterexample: the search does not terminate for every
difficulty `≥ 0`. A SHA-256 hex digest has exactly 64 characters, so at
difficulty `65` the required 65-zero prefix is longer than every digest,
no nonce is ever accepted, and the `while (true)` loop runs forever (no
fuel bound suffices), shown here on a digest stream of that fixed
length. -/
theorem C6_counterexample :
    ¬ ∃ fuel sol, minePoW (fun _ => List.replicate 64 '0') 65 fuel = some sol := by
  rintro ⟨fuel, sol, hrun⟩
  rw [minePoW] at hrun
  obtain ⟨-, -, -, ha, -⟩ :=
    minePoWAux_some_spec (acceptHash 65) (fun _ => List.replicate 64 '0') fuel 0 sol hrun
  have h65 : acceptHash 65 = acceptHashCore 65 false 16 :=
    acceptHash_eq_core _ _ _ _ (by norm_num; decide) (by norm_num) (by norm_num)
  rw [h65] at ha
  have ha' : acceptHashCore 65 false 16 (List.replicate 64 '0') = true := ha
  exact absurd ha' (by decide)

/-- C6 amended: the search terminates (some fuel bound returns a
solution) whenever some nonce of the stream satisfies the acceptance
predicate — which the spec's probabilistic argument assumes, and which
is impossible when `⌊difficulty⌋` exceeds the 64-character digest
length. -/
theorem C6_amended_terminates_when_solution_exists (H : Nat → List Char)
    (d : ℚ) (n : Nat) (hacc : acceptHash d (H n) = true) :
    ∃ fuel sol, minePoW H d fuel = some sol := by
  obtain ⟨sol, hs⟩ :=
    minePoWAux_complete (acceptHash d) H n hacc (n + 1) 0 (Nat.zero_le n) (by omega)
  exact ⟨n + 1, sol, hs⟩

/-- Witness for C6's amended theorem: at difficulty `0` every digest is
accepted, so the search over a constant stream terminates. -/
theorem C6_amended_witness :
    ∃ fuel sol, minePoW (fun _ => ['a']) 0 fuel = some sol := by
  apply C6_amended_terminates_when_solution_exists (fun _ => ['a']) 0 0
  have h0 : acceptHash 0 = acceptHashCore 0 false 16 :=
    acceptHash_eq_core _ _ _ _ (by norm_num) (by norm_num) (by norm_num)
  rw [h0]
  decide

/-- C2: for difficulty `d = n + f` with `n : ℕ` and `0 ≤ f < 1`, every
solution returned by `minePoW` has a hash whose first `n` hex characters
are all `'0'`; if `f > 0` the hex digit at 0-indexed position `n` parses
and its value is `≤ ⌊16 * (1 - f)⌋`; and if `f = 0` acceptance coincides
with the `n`-character zero-prefix test alone. -/
theorem C2_fractional_difficulty (H : Nat → List Char) (n : Nat) (f : ℚ)
    (hf0 : 0 ≤ f) (hf1 : f < 1) (fuel : Nat) (sol : PoWSolution)
    (hrun : minePoW H ((n : ℚ) + f) fuel = some sol) :
    sol.hash.take n = List.replicate n '0'
    ∧ (0 < f → ∃ v : Nat, sol.hash[n]?.bind hexVal? = some v
        ∧ (v : Int) ≤ Int.floor (16 * (1 - f)))
    ∧ (f = 0 → ∀ g : List Char,
        acceptHash ((n : ℚ) + f) g = (List.replicate n '0').isPrefixOf g) := by
  have hfl := floor_nat_add_fract n f hf0 hf1
  have hfrac : ((n : ℚ) + f) - Int.floor ((n : ℚ) + f) = f := by
    rw [hfl]
    push_cast
    ring
  have hcore : acceptHash ((n : ℚ) + f)
      = acceptHashCore n (decide (0 < f)) (Int.floor (16 * (1 - f))) := by
    apply acceptHash_eq_core
    · rw [hfl, Int.toNat_natCast]
    · rw [hfrac]
    · rw [hfrac]
  rw [minePoW] at hrun
  obtain ⟨-, -, hh, ha, -⟩ :=
    minePoWAux_some_spec (acceptHash ((n : ℚ) + f)) H fuel 0 sol hrun
  rw [hcore, ← hh, acceptHashCore_eq_true_iff] at ha
  obtain ⟨hpre, hfracpart⟩ := ha
  have htake : sol.hash.take n = List.replicate n '0' := by
    obtain ⟨r, hr⟩ := (isPrefixOf_eq_true_iff _ _).mp hpre
    rw [← hr]
    have h2 := List.take_left (List.replicate n '0') r
    rw [List.length_replicate] at h2
    exact h2
  refine ⟨htake, ?_, ?_⟩
  · intro hf
    obtain ⟨c, v, hc, hv, hle⟩ := hfracpart (decide_eq_true hf)
    exact ⟨v, by rw [hc]; simpa using hv, hle⟩
  · rintro rfl g
    rw [hcore]
    have h0 : decide (0 < (0 : ℚ)) = false := by norm_num
    rw [h0]
    unfold acceptHashCore
    by_cases hg : (List.replicate n '0').isPrefixOf g = true
    · rw [if_pos hg, hg, if_neg Bool.false_ne_true]
    · rw [if_neg hg]
      simp only [Bool.not_eq_true] at hg
      rw [hg]

/-- Witness for C2 at difficulty `1 + 1/2` on a stream accepted at
nonce `0`. -/
theorem C2_fractional_difficulty_witness :
    (['0', '7', 'a'] : List Char).take 1 = List.replicate 1 '0'
    ∧ (0 < (1 / 2 : ℚ) → ∃ v : Nat, (['0', '7', 'a'] : List Char)[1]?.bind hexVal? = some v
        ∧ (v : Int) ≤ Int.floor (16 * (1 - (1 / 2 : ℚ))))
    ∧ ((1 / 2 : ℚ) = 0 → ∀ g : List Char,
        acceptHash (((1 : Nat) : ℚ) + 1 / 2) g = (List.replicate 1 '0').isPrefixOf g) := by
  have hacc : acceptHash (((1 : Nat) : ℚ) + 1 / 2) = acceptHashCore 1 true 8 :=
    acceptHash_eq_core _ _ _ _ (by norm_num) (by norm_num) (by norm_num)
  exact C2_fractional_difficulty (fun _ => ['0', '7', 'a']) 1 (1 / 2)
    (by norm_num) (by norm_num) 1 ⟨0, ['0', '7', 'a']⟩
    (by rw [minePoW, hacc]; decide)

/-- C4: when the gate is open and a job is claimed, the AI-loop
iteration submits exactly one result for that job's id, whatever the
inference outcome; and when the backend call throws, the submission
carries the fixed fallback result string and a non-empty error that the
posted payload preserves. -/
theorem C4_exactly_one_submission (s : Option HostState)
    (rawJob : Except String (HttpResp AiJobNextResp))
    (inf : Except String String) (j : AiJob)
    (hgate : gateOpen s = true)
    (hjob : fetchNextAiJobResult rawJob = some j) :
    (aiIteration s rawJob inf).filter isSubmitCall
      = [AAction.submitResultCall j.id (inferenceOutcome inf).1 (inferenceOutcome inf).2]
    ∧ (∀ msg, inf = Except.error msg →
        (inferenceOutcome inf).1 = fallbackResult
        ∧ ∃ e, (inferenceOutcome inf).2 = some e ∧ e ≠ ""
            ∧ (submitAiJobPayload (inferenceOutcome inf).1
                (inferenceOutcome inf).2).2 = some e) := by
  constructor
  · unfold aiIteration
    rw [if_pos hgate, hjob]
    simp [isSubmitCall]
  · rintro msg rfl
    refine ⟨rfl, if msg = "" then ("GPU_INFERENCE_FAILED") else msg, rfl, ?_, ?_⟩
    · by_cases hm : msg = ""
      · subst hm
        decide
      · rw [if_neg hm]
        exact hm
    · by_cases hm : msg = ""
      · subst hm
        decide
      · rw [if_neg hm]
        simp [inferenceOutcome, submitAiJobPayload, hm]

/-- Witness for C4 at an open gate, a claimed job and a throwing
backend call with an empty error message. -/
theorem C4_exactly_one_submission_witness :
    (aiIteration (some (HostState.mk ("HOST-3090-1") true none none (some true)))
        (Except.ok (HttpResp.mk true 200
          (AiJobNextResp.mk (some true)
            (some (AiJob.mk 7 "w" "llama3-8b" "hello" "queued" none none)) none)))
        (Except.error (""))).filter isSubmitCall
      = [AAction.submitResultCall 7
          (inferenceOutcome (Except.error (""))).1 (inferenceOutcome (Except.error (""))).2]
    ∧ (∀ msg, (Except.error ("") : Except String String) = Except.error msg →
        (inferenceOutcome (Except.error (""))).1 = fallbackResult
        ∧ ∃ e, (inferenceOutcome (Except.error (""))).2 = some e ∧ e ≠ ""
            ∧ (submitAiJobPayload (inferenceOutcome (Except.error (""))).1
                (inferenceOutcome (Except.error (""))).2).2 = some e) :=
  C4_exactly_one_submission
    (some (HostState.mk ("HOST-3090-1") true none none (some true)))
    (Except.ok (HttpResp.mk true 200
      (AiJobNextResp.mk (some true)
        (some (AiJob.mk 7 "w" "llama3-8b" "hello" "queued" none none)) none)))
    (Except.error ("")) (AiJob.mk 7 "w" "llama3-8b" "hello" "queued" none none)
    (by decide) (by decide)

/-- C7: a missing `WALLET` environment variable makes the process exit
with the non-zero status 1 before either worker loop starts; and every
modelled iteration of both loops completes normally whatever its remote
calls do (every network failure is caught inside the call wrappers), so
no other modelled condition terminates the process. -/
theorem C7_missing_wallet_only_fatal :
    (∀ (env : String → Option String) (hostname : String),
        env ("WALLET") = none →
        programBoot env hostname = Except.error 1 ∧ (1 : Nat) ≠ 0)
    ∧ (∀ rh rs, ∃ acts, miningIterationRaw rh rs = Except.ok acts)
    ∧ (∀ rs rj inf, ∃ acts, aiIterationRaw rs rj inf = Except.ok acts) := by
  refine ⟨?_, fun rh rs => ⟨_, rfl⟩, fun rs rj inf => ⟨_, rfl⟩⟩
  intro env hostname hz
  refine ⟨?_, by decide⟩
  simp [programBoot, configOf, orDefault, hz]

/-- Witness for C7 with an empty environment and failing remote calls. -/
theorem C7_missing_wallet_only_fatal_witness :
    (programBoot (fun _ => none) "machine" = Except.error 1 ∧ (1 : Nat) ≠ 0)
    ∧ (∃ acts, miningIterationRaw (Except.error ("down")) (Except.error ("down"))
        = Except.ok acts)
    ∧ (∃ acts, aiIterationRaw (Except.error ("down")) (Except.error ("down"))
        (Except.error ("down")) = Except.ok acts) :=
  ⟨C7_missing_wallet_only_fatal.1 (fun _ => none) "machine" rfl,
    C7_missing_wallet_only_fatal.2.1 (Except.error ("down")) (Except.error ("down")),
    C7_missing_wallet_only_fatal.2.2 (Except.error ("down")) (Except.error ("down"))
      (Except.error ("down"))⟩

/-- C8 counterexample: the mining difficulty is not consumed from the
environment — index.ts 18 hardcodes `5.5`. Setting a
`MINING_DIFFICULTY` environment variable leaves the configured
difficulty unchanged at `5.5`. -/
theorem C8_counterexample :
    (configOf (fun k => if k = "MINING_DIFFICULTY" then some ("2") else none)
        "m").miningDifficulty
      = (configOf (fun _ => none) "m").miningDifficulty
    ∧ (configOf (fun _ => none) "m").miningDifficulty = 11 / 2
    ∧ (11 / 2 : ℚ) ≠ 2 :=
  ⟨rfl, rfl, by norm_num⟩

/-- C8 amended: the mining difficulty is the hardcoded non-negative
constant `5.5`, independent of the environment, while the other
enumerated configuration values (wallet, host identifier, device
identifier, coordinator address, backend address) are consumed from the
environment. -/
theorem C8_difficulty_hardcoded (env : String → Option String) (hostname : String) :
    (configOf env hostname).miningDifficulty = 11 / 2
    ∧ 0 ≤ (configOf env hostname).miningDifficulty
    ∧ (∀ s, s ≠ "" → env ("WALLET") = some s → (configOf env hostname).wallet = s)
    ∧ (∀ s, s ≠ "" → env ("HOST_ID") = some s → (configOf env hostname).hostId = s)
    ∧ (∀ s, s ≠ "" → env ("DEVICE_ID") = some s → (configOf env hostname).deviceId = s)
    ∧ (∀ s, s ≠ "" → env ("COORD") = some s → (configOf env hostname).coord = s)
    ∧ (∀ s, s ≠ "" → env ("OLLAMA_URL") = some s → (configOf env hostname).ollamaUrl = s) := by
  refine ⟨rfl, by rw [show (configOf env hostname).miningDifficulty = 11 / 2 from rfl]; norm_num,
    ?_, ?_, ?_, ?_, ?_⟩
  all_goals intro s hs he
  all_goals simp [configOf, orDefault, he, hs]

/-- Witness for C8's amended theorem at a fully populated environment. -/
theorem C8_difficulty_hardcoded_witness :
    (configOf (fun _ => some ("v")) "machine").miningDifficulty = 11 / 2
    ∧ (configOf (fun _ => some ("v")) "machine").wallet = "v" := by
  obtain ⟨h1, -, h3, -⟩ := C8_difficulty_hardcoded (fun _ => some ("v")) "machine"
  exact ⟨h1, h3 ("v") (by decide) rfl⟩

/-- C9: the backend model name is `'mistral'` exactly when the job's
model identifier lower-cased contains the substring `'mistral'`, and
`'llama3.1'` exactly otherwise. -/
theorem C9_model_name_mapping (modelId : String) :
    (engineModelFor modelId = "mistral"
      ↔ "mistral".toList <:+: modelId.toList.map Char.toLower)
    ∧ (engineModelFor modelId = "llama3.1"
      ↔ ¬ "mistral".toList <:+: modelId.toList.map Char.toLower) := by
  unfold engineModelFor
  by_cases hc : containsSub ("mistral".toList) (modelId.toList.map Char.toLower) = true
  · rw [if_pos hc]
    rw [containsSub_iff] at hc
    exact ⟨iff_of_true rfl hc, iff_of_false (by decide) (not_not_intro hc)⟩
  · rw [if_neg hc]
    rw [containsSub_iff] at hc
    exact ⟨iff_of_false (by decide) hc, iff_of_true rfl hc⟩

/-- C10: a claim attempt yields `none` alike on a transport error, on a
non-2xx HTTP status, and on a coordinator body with no job; the AI-loop
iteration reacts to any two such outcomes with the exact same trace —
the wait-and-retry delay of 2000 ms — so the loop cannot distinguish a
network failure from an empty job queue, and no claim attempt raises. -/
theorem C10_claim_failure_indistinguishable :
    (∀ m, fetchNextAiJobResult (Except.error m) = none)
    ∧ (∀ r : HttpResp AiJobNextResp, r.ok = false →
        fetchNextAiJobResult (Except.ok r) = none)
    ∧ (∀ r : HttpResp AiJobNextResp, r.body.job = none →
        fetchNextAiJobResult (Except.ok r) = none)
    ∧ (∀ (s : Option HostState) rawJob rawJob' inf inf',
        fetchNextAiJobResult rawJob = none →
        fetchNextAiJobResult rawJob' = none →
        aiIteration s rawJob inf = aiIteration s rawJob' inf'
        ∧ (gateOpen s = true →
            aiIteration s rawJob inf
              = [AAction.hostStateCall, AAction.fetchJobCall, AAction.delayCall 2000])) := by
  refine ⟨fun m => rfl, ?_, ?_, ?_⟩
  · intro r hok
    simp [fetchNextAiJobResult, hok]
  · intro r hjob
    by_cases hok : r.ok <;> simp [fetchNextAiJobResult, hok, hjob]
  · intro s rawJob rawJob' inf inf' h1 h2
    constructor
    · unfold aiIteration
      rw [h1, h2]
    · intro hg
      unfold aiIteration
      rw [if_pos hg, h1]

/-- Witness for C10: a transport error and a 200-OK empty-queue response
produce identical iteration traces at an open gate. -/
theorem C10_claim_failure_indistinguishable_witness :
    (aiIteration (some (HostState.mk ("HOST-3090-1") true none none (some true)))
        (Except.error ("connection refused")) (Except.ok ("text"))
      = aiIteration (some (HostState.mk ("HOST-3090-1") true none none (some true)))
          (Except.ok (HttpResp.mk true 200 (AiJobNextResp.mk (some true) none none)))
          (Except.error ("other")))
    ∧ (gateOpen (some (HostState.mk ("HOST-3090-1") true none none (some true))) = true →
        aiIteration (some (HostState.mk ("HOST-3090-1") true none none (some true)))
          (Except.error ("connection refused")) (Except.ok ("text"))
          = [AAction.hostStateCall, AAction.fetchJobCall, AAction.delayCall 2000]) :=
  C10_claim_failure_indistinguishable.2.2.2
    (some (HostState.mk ("HOST-3090-1") true none none (some true)))
    (Except.error ("connection refused"))
    (Except.ok (HttpResp.mk true 200 (AiJobNextResp.mk (some true) none none)))
    (Except.ok ("text")) (Except.error ("other")) rfl (by decide)

end Miner
